import Mathlib

/-!
# Verification of the Polymarket tick-data store and recorder

A shallow embedding of the persistence and orchestration layer of
`polymarket-crypto-tools`:

* `tick_database.py` — the SQLite-backed `TickDatabase` class.  The database
  state is modelled as explicit lists of rows (kept in rowid order, i.e. the
  order of successful inserts); each method becomes a pure function from a
  `DB` state (plus the wall-clock strings the Python code reads from
  `datetime.now`) to a new state and return value.
* `tick_recorder.py` — `TickRecorder._fetch_market_metadata` and
  `TickRecorder.start_recording`, modelled as pure functions over an abstract
  upstream lookup (the Gamma API response of
  `PolymarketAPIClient.get_market_by_id`), producing an explicit event trace.

Python floats appearing as trade prices and sizes are embedded as rationals;
where the source renders them to fixed-point text (`f"{price:.6f}"`,
`f"{value:.4f}"`) we model the rendering by the scaled integer obtained from
round-half-to-even, which is what C `printf`-style formatting computes on the
exact value.
-/

namespace PolymarketTicks

/-- Round-half-to-even of the fraction `n / d` (with `d > 0`), computed on
the integer numerator and denominator: `f` is the floor, `r` the
nonnegative remainder, and a tie (`2r = d`) goes to the even neighbour.
This is the rounding Python fixed-point float formatting applies. -/
def roundHalfEvenScaled (n d : ℤ) : ℤ :=
  let f := n.fdiv d
  let r := n - f * d
  if 2 * r < d then f
  else if d < 2 * r then f + 1
  else if f % 2 = 0 then f else f + 1

/-- The scaled integer whose decimal rendering is the six-decimal fixed-point
text `f"{q:.6f}"` of the Python source (sign-of-zero aside): round-half-even
of `q * 10^6`, computed as `(num * 10^6) / den`. -/
def fmt6 (q : ℚ) : ℤ := roundHalfEvenScaled (q.num * 1000000) q.den

/-- The scaled integer for the four-decimal rendering `f"{q:.4f}"` used by
`TickDatabase.export_to_csv` for the trade value column. -/
def fmt4 (q : ℚ) : ℤ := roundHalfEvenScaled (q.num * 10000) q.den

/-- The content fingerprint computed by `TickDatabase._generate_trade_id`.
The Python code builds `f"{asset_id}_{timestamp}_{price:.6f}_{size:.6f}"`
and MD5-hashes it; we keep the four components of that key (with the two
floats rendered at six decimals), abstracting the string concatenation and
the hash, both of which only re-encode this tuple. -/
abbrev TradeId := String × String × ℤ × ℤ

/-- Embeds `TickDatabase._generate_trade_id`. -/
def generate_trade_id (asset_id timestamp : String) (price size : ℚ) : TradeId :=
  (asset_id, timestamp, fmt6 price, fmt6 size)

/-- The `trade_data` dictionary accepted by `TickDatabase.insert_trade`
(its required and optional keys). -/
structure Trade where
  market_id : String
  asset_id : String
  side : String
  outcome : Option String
  price : ℚ
  size : ℚ
  fee_rate_bps : Option ℤ
  timestamp : String
  source : String
deriving DecidableEq, Repr

/-- A row of the `trades` table (schema in `TickDatabase._create_schema`);
`recorded_at` is the ingestion time string taken at insert. -/
structure TradeRow where
  trade_id : TradeId
  market_id : String
  asset_id : String
  side : String
  outcome : Option String
  price : ℚ
  size : ℚ
  fee_rate_bps : Option ℤ
  timestamp : String
  source : String
  recorded_at : String
deriving DecidableEq, Repr

/-- The `market_data` dictionary accepted by `TickDatabase.insert_market`. -/
structure MarketData where
  market_id : String
  question : String
  outcome_up : Option String
  outcome_down : Option String
  token_up : String
  token_down : String
  created_at : Option String
  closed : Bool
  closed_time : Option String
deriving DecidableEq, Repr

/-- A row of the `markets` table: the upserted data plus the
`first_seen` / `last_updated` bookkeeping columns. -/
structure MarketRow where
  data : MarketData
  first_seen : String
  last_updated : String
deriving DecidableEq, Repr

/-- The database state: both tables, rows listed in rowid (insertion)
order. -/
structure DB where
  markets : List MarketRow
  trades : List TradeRow
deriving DecidableEq, Repr

/-- A freshly created database (empty schema). -/
def DB.empty : DB := ⟨[], []⟩

/-- The fingerprint of a trade dictionary, as `insert_trade` computes it. -/
def fingerprintOf (t : Trade) : TradeId :=
  generate_trade_id t.asset_id t.timestamp t.price t.size

/-- The `CHECK` constraints of the `trades` table:
`side IN ('BUY', 'SELL')` and `source IN ('websocket', 'rest_api')`.
Under `INSERT OR IGNORE` a violating row is silently skipped. -/
def tradeSatisfiesChecks (t : Trade) : Bool :=
  (t.side == "BUY" || t.side == "SELL") &&
    (t.source == "websocket" || t.source == "rest_api")

/-- Whether some stored row already carries the given `trade_id`
(the `UNIQUE` constraint consulted by `INSERT OR IGNORE`). -/
def hasTradeId (db : DB) (tid : TradeId) : Bool :=
  db.trades.any fun r => decide (r.trade_id = tid)

/-- The row `insert_trade` writes for a trade dictionary at ingestion
time `now`. -/
def mkTradeRow (t : Trade) (now : String) : TradeRow :=
  { trade_id := fingerprintOf t
    market_id := t.market_id
    asset_id := t.asset_id
    side := t.side
    outcome := t.outcome
    price := t.price
    size := t.size
    fee_rate_bps := t.fee_rate_bps
    timestamp := t.timestamp
    source := t.source
    recorded_at := now }

/-- Embeds `TickDatabase.insert_trade`: computes the fingerprint, performs
`INSERT OR IGNORE` (skipping the row when the `UNIQUE` trade_id or a `CHECK`
constraint is violated) and reports via `cursor.rowcount > 0` whether a new
row was written. -/
def insert_trade (db : DB) (t : Trade) (now : String) : DB × Bool :=
  let row := mkTradeRow t now
  if tradeSatisfiesChecks t && !(hasTradeId db row.trade_id) then
    ({ db with trades := db.trades ++ [row] }, true)
  else
    (db, false)

/-- Folding `insert_trade` over a list of (trade, ingestion-time) pairs;
this is the state evolution of any sequence of `insert_trade` calls. -/
def applyInserts : DB → List (Trade × String) → DB
  | db, [] => db
  | db, (t, now) :: rest => applyInserts (insert_trade db t now).1 rest

/-- Embeds `TickDatabase.insert_trades_batch`: applies `insert_trade` to each
item in order and counts the calls that returned `True`. -/
def insert_trades_batch : DB → List (Trade × String) → DB × ℕ
  | db, [] => (db, 0)
  | db, (t, now) :: rest =>
    let step := insert_trade db t now
    let tail := insert_trades_batch step.1 rest
    (tail.1, (if step.2 then 1 else 0) + tail.2)

/-- Number of stored rows carrying a given fingerprint. -/
def fpCount (db : DB) (tid : TradeId) : ℕ :=
  (db.trades.filter fun r => decide (r.trade_id = tid)).length

/-- Embeds `TickDatabase.insert_market` (`INSERT OR REPLACE` keyed on the
`market_id` primary key).  The `COALESCE((SELECT first_seen FROM markets
WHERE market_id = ?), ?)` subquery reads the pre-existing row, so
`first_seen` is preserved on conflict and set to `now` for a new market;
`last_updated` is always `now`.  The Python method always returns `True`. -/
def insert_market (db : DB) (m : MarketData) (now : String) : DB :=
  let fs := match db.markets.find? (fun r => r.data.market_id == m.market_id) with
    | some r => r.first_seen
    | none => now
  { db with
    markets :=
      (db.markets.filter fun r => !(r.data.market_id == m.market_id)) ++
        [{ data := m, first_seen := fs, last_updated := now }] }

/-- Folding `insert_market` over a list of (market, upsert-time) pairs. -/
def applyMarketUpserts : DB → List (MarketData × String) → DB
  | db, [] => db
  | db, (m, now) :: rest => applyMarketUpserts (insert_market db m now) rest

/-- Embeds `TickDatabase.get_market` (`SELECT * FROM markets WHERE
market_id = ?` on the primary key). -/
def get_market (db : DB) (market_id : String) : Option MarketRow :=
  db.markets.find? fun r => r.data.market_id == market_id

/-- Python truthiness of the optional string parameters of the query methods:
the `if start_time:` guards treat both `None` and the empty string as "no
filter". -/
def strFilterActive : Option String → Bool
  | none => false
  | some s => !s.isEmpty

/-- The `ORDER BY timestamp ASC` comparison on two trade rows (SQLite
compares the TEXT column; byte order of UTF-8 agrees with the code-point
lexicographic order on `String`). -/
def tsLe (a b : TradeRow) : Prop := a.timestamp ≤ b.timestamp

instance : DecidableRel tsLe := fun a b => String.decidableLE a.timestamp b.timestamp

instance : IsTotal TradeRow tsLe := ⟨fun a b => le_total a.timestamp b.timestamp⟩

instance : IsTrans TradeRow tsLe := ⟨fun _ _ _ h h2 => le_trans h h2⟩

/-- The row filter built by `TickDatabase.get_trades_by_market`:
`market_id = ?`, then `timestamp >= ?` / `timestamp < ?` / `outcome = ?`
for each parameter that passed its truthiness guard. -/
def marketQueryPred (market_id : String) (start_time end_time outcome : Option String)
    (r : TradeRow) : Bool :=
  r.market_id == market_id &&
    (!strFilterActive start_time || decide (start_time.getD "" ≤ r.timestamp)) &&
    (!strFilterActive end_time || decide (r.timestamp < end_time.getD "")) &&
    (!strFilterActive outcome || r.outcome == some (outcome.getD ""))

/-- Embeds `TickDatabase.get_trades_by_market`: the `WHERE` clause assembled
from the given parameters, then `ORDER BY timestamp ASC` (modelled by a
stable sort on the timestamp text). -/
def get_trades_by_market (db : DB) (market_id : String)
    (start_time end_time outcome : Option String) : List TradeRow :=
  List.insertionSort tsLe
    (db.trades.filter (marketQueryPred market_id start_time end_time outcome))

/-- The row filter built by `TickDatabase.get_trades_by_token`. -/
def tokenQueryPred (asset_id : String) (start_time end_time : Option String)
    (r : TradeRow) : Bool :=
  r.asset_id == asset_id &&
    (!strFilterActive start_time || decide (start_time.getD "" ≤ r.timestamp)) &&
    (!strFilterActive end_time || decide (r.timestamp < end_time.getD ""))

/-- Embeds `TickDatabase.get_trades_by_token`. -/
def get_trades_by_token (db : DB) (asset_id : String)
    (start_time end_time : Option String) : List TradeRow :=
  List.insertionSort tsLe
    (db.trades.filter (tokenQueryPred asset_id start_time end_time))

/-- The stored trades of one market, in rowid order (the rows the summary
and export aggregate over). -/
def tradesOfMarket (db : DB) (market_id : String) : List TradeRow :=
  db.trades.filter fun r => r.market_id == market_id

/-- SQL `MIN` over a TEXT column: `NULL` on the empty set, else the
lexicographic minimum. -/
def sqlMin : List String → Option String
  | [] => none
  | x :: xs => some (xs.foldl min x)

/-- SQL `MAX` over a TEXT column. -/
def sqlMax : List String → Option String
  | [] => none
  | x :: xs => some (xs.foldl max x)

/-- The dictionary returned by `TickDatabase.get_market_summary`.
`total_volume` is `SUM(size)`, which is SQL-`NULL` when the market has no
trades; `sources` is the `GROUP BY source` count breakdown (one entry per
distinct source value). -/
structure MarketSummary where
  total_trades : ℕ
  total_volume : Option ℚ
  oldest_trade : Option String
  newest_trade : Option String
  sources : List (String × ℕ)
deriving DecidableEq, Repr

/-- Embeds `TickDatabase.get_market_summary`: the single-row aggregate
`COUNT(*) / SUM(size) / MIN(timestamp) / MAX(timestamp)` plus the
`GROUP BY source` counts. -/
def get_market_summary (db : DB) (market_id : String) : MarketSummary :=
  let rows := tradesOfMarket db market_id
  let srcs := rows.map (fun r => r.source)
  { total_trades := rows.length
    total_volume := if rows.isEmpty then none else some (rows.map (fun r => r.size)).sum
    oldest_trade := sqlMin (rows.map fun r => r.timestamp)
    newest_trade := sqlMax (rows.map fun r => r.timestamp)
    sources := srcs.dedup.map fun s => (s, srcs.count s) }

/-- One data line of the CSV written by `TickDatabase.export_to_csv`, with
its fields in the fixed `fieldnames` column order.  `value` is the
`f"{price * size:.4f}"` rendering, modelled by the scaled integer `fmt4`;
`outcome` / `fee_rate_bps` are written as the empty cell when `NULL`. -/
structure CsvRow where
  timestamp : String
  market_id : String
  asset_id : String
  side : String
  outcome : Option String
  price : ℚ
  size : ℚ
  value : ℤ
  fee_rate_bps : Option ℤ
  source : String
deriving DecidableEq, Repr

/-- The CSV line written for one trade row. -/
def mkCsvRow (r : TradeRow) : CsvRow :=
  { timestamp := r.timestamp
    market_id := r.market_id
    asset_id := r.asset_id
    side := r.side
    outcome := r.outcome
    price := r.price
    size := r.size
    value := fmt4 (r.price * r.size)
    fee_rate_bps := r.fee_rate_bps
    source := r.source }

/-- The fixed `fieldnames` header of `export_to_csv`. -/
def csvHeader : List String :=
  ["timestamp", "market_id", "asset_id", "side", "outcome",
   "price", "size", "value", "fee_rate_bps", "source"]

/-- A written CSV file: the header line plus one line per exported trade. -/
structure CsvFile where
  header : List String
  rows : List CsvRow
deriving DecidableEq, Repr

/-- Embeds `TickDatabase.export_to_csv`.  The function queries all trades of
the market; when the list is empty it returns `0` **before opening the output
path** (no file is created, modelled by `none`); otherwise it writes the
header and one line per trade in query (timestamp-ascending) order and
returns the trade count. -/
def export_to_csv (db : DB) (market_id : String) : ℕ × Option CsvFile :=
  let trades := get_trades_by_market db market_id none none none
  if trades.isEmpty then (0, none)
  else (trades.length, some { header := csvHeader, rows := trades.map mkCsvRow })

/-! ## Recorder: metadata resolution and startup (`tick_recorder.py`) -/

/-- A loosely-typed Gamma-API field that may arrive either as a JSON list of
strings or as a JSON-encoded string (the API delivers `clobTokenIds` and
`outcomes` in both shapes; the repository's other resolvers branch on
`isinstance(x, str)`). -/
inductive StrListField where
  | list (xs : List String)
  | str (s : String)
deriving DecidableEq, Repr

/-- Python `len` applied to such a field: list length, or character count
when the value is still an (undecoded) string. -/
def pyLen : StrListField → ℕ
  | .list xs => xs.length
  | .str s => s.length

/-- Python indexing `x[i]` on such a field (a one-character string when the
value is a string); only evaluated behind the length-2 guard. -/
def pyIndex : StrListField → ℕ → String
  | .list xs, i => xs.getD i ""
  | .str s, i => String.mk [s.toList.getD i ' ']

/-- The Gamma-API market record consumed by
`TickRecorder._fetch_market_metadata` (fields read via `market.get`). -/
structure GammaMarket where
  question : Option String
  createdAt : Option String
  closed : Option Bool
  closedTime : Option String
  clobTokenIds : Option StrListField
  outcomes : Option StrListField
deriving DecidableEq, Repr

/-- The body of `TickRecorder._fetch_market_metadata` for one market id,
given the `PolymarketAPIClient.get_market_by_id` response: a missing record
is skipped; `clobTokenIds` / `outcomes` are read with the `[]` default and
validated by `len(...) != 2` **on the raw value, with no decoding**; on
success the cached metadata and the two token-map entries
`(token, outcome)` are produced. -/
def fetch_market_metadata_one (resp : Option GammaMarket) (market_id : String) :
    Option (MarketData × (String × String) × (String × String)) :=
  match resp with
  | none => none
  | some mk =>
    let clob_tokens := mk.clobTokenIds.getD (.list [])
    let outs := mk.outcomes.getD (.list [])
    if pyLen clob_tokens = 2 ∧ pyLen outs = 2 then
      let token_up := pyIndex clob_tokens 0
      let token_down := pyIndex clob_tokens 1
      let outcome_up := pyIndex outs 0
      let outcome_down := pyIndex outs 1
      some ({ market_id := market_id
              question := mk.question.getD ""
              outcome_up := some outcome_up
              outcome_down := some outcome_down
              token_up := token_up
              token_down := token_down
              created_at := mk.createdAt
              closed := mk.closed.getD false
              closed_time := mk.closedTime },
            (token_up, outcome_up), (token_down, outcome_down))
    else none

/-- Scan a double-quoted JSON string body (no escape handling), returning the
string and the remaining characters after the closing quote. -/
def scanQuoted : List Char → String → Option (String × List Char)
  | [], _ => none
  | c :: rest, acc => if c = '"' then some (acc, rest) else scanQuoted rest (acc.push c)

/-- Scan comma-separated quoted items up to the closing bracket (fuelled by
the input length). -/
def scanItems : ℕ → List Char → List String → Option (List String)
  | 0, _, _ => none
  | n + 1, cs, acc =>
    match cs with
    | '"' :: rest =>
      match scanQuoted rest "" with
      | none => none
      | some (s, rest2) =>
        match rest2 with
        | [']'] => some (acc ++ [s])
        | ',' :: rest3 => scanItems n rest3 (acc ++ [s])
        | _ => none
    | _ => none

/-- Modelled from the spec: the defensive decoding step of §4.2
("Token/outcome fields delivered as encoded strings must be decoded
defensively before validation") that `tick_recorder.py` is missing — its
sibling resolvers (`live_monitor.py`, `price_history.py`,
`crypto_market_finder.py`, `any_market_finder.py`) implement it as
`json.loads(x) if isinstance(x, str) else x`.  A list passes through; an
encoded string is parsed as a JSON array of strings, yielding `[]` when
undecodable. -/
def decodeField : StrListField → List String
  | .list xs => xs
  | .str s =>
    match s.toList with
    | ['[', ']'] => []
    | '[' :: rest => (scanItems rest.length rest []).getD []
    | _ => []

/-- Modelled from the spec: `resolve(market_id)` of §4.2, identical to
`fetch_market_metadata_one` except that both fields pass through the
defensive decoding before the exactly-two validation. -/
def resolveSpecModel (resp : Option GammaMarket) (market_id : String) :
    Option (MarketData × (String × String) × (String × String)) :=
  match resp with
  | none => none
  | some mk =>
    let clob_tokens := decodeField (mk.clobTokenIds.getD (.list []))
    let outs := decodeField (mk.outcomes.getD (.list []))
    if clob_tokens.length = 2 ∧ outs.length = 2 then
      let token_up := clob_tokens.getD 0 ""
      let token_down := clob_tokens.getD 1 ""
      let outcome_up := outs.getD 0 ""
      let outcome_down := outs.getD 1 ""
      some ({ market_id := market_id
              question := mk.question.getD ""
              outcome_up := some outcome_up
              outcome_down := some outcome_down
              token_up := token_up
              token_down := token_down
              created_at := mk.createdAt
              closed := mk.closed.getD false
              closed_time := mk.closedTime },
            (token_up, outcome_up), (token_down, outcome_down))
    else none

/-- CPython dict assignment `d[k] = v`: an existing key keeps its position
and gets the new value, a new key is appended. -/
def dictInsert {α : Type} (k : String) (v : α) : List (String × α) → List (String × α)
  | [] => [(k, v)]
  | (k2, v2) :: rest =>
    if k2 == k then (k2, v) :: rest else (k2, v2) :: dictInsert k v rest

/-- The observable steps of `TickRecorder.start_recording`, in program
order. -/
inductive RecEvent where
  | resolveFail (market_id : String)
  | resolveOk (market_id : String)
  | saveMarket (market_id : String)
  | connect (tokens : List String)
deriving DecidableEq, Repr

/-- The recorder state built by `_fetch_market_metadata`:
`markets_metadata` and `token_map` are insertion-ordered dicts, plus the
trace of per-market outcomes. -/
structure FetchState where
  events : List RecEvent
  markets_metadata : List (String × MarketData)
  token_map : List (String × (String × String))
deriving DecidableEq, Repr

/-- One iteration of the `_fetch_market_metadata` loop: a market that fails
to resolve (missing record, non-binary shape, or a raised error) is logged
and skipped; a resolved market stores its metadata and its two token-map
entries. -/
def fetchStep (api : String → Option GammaMarket) (st : FetchState) (market_id : String) :
    FetchState :=
  match fetch_market_metadata_one (api market_id) market_id with
  | none => { st with events := st.events ++ [.resolveFail market_id] }
  | some (md, (tu, ou), (td, od)) =>
    { events := st.events ++ [.resolveOk market_id]
      markets_metadata := dictInsert market_id md st.markets_metadata
      token_map := dictInsert td (market_id, od) (dictInsert tu (market_id, ou) st.token_map) }

/-- Embeds `TickRecorder._fetch_market_metadata` over the whole
`market_ids` list. -/
def fetch_market_metadata (api : String → Option GammaMarket) (mids : List String) :
    FetchState :=
  mids.foldl (fetchStep api) { events := [], markets_metadata := [], token_map := [] }

/-- The outcome of `TickRecorder.start_recording` (up to the point where the
stream loop would block): the event trace, the Market metadata upserted into
the database, the token set handed to `MarketWebSocketClient` (`none` when
the method returned before constructing the client), and whether the run
signalled failure to the process (the zero-markets branch prints a
diagnostic and executes a plain `return`, so the process still exits
zero). -/
structure StartResult where
  events : List RecEvent
  savedMarkets : List MarketData
  connected : Option (List String)
  exitedNonzero : Bool
deriving DecidableEq, Repr

/-- Embeds `TickRecorder.start_recording` up to the stream connect:
resolve all markets (individual failures skipped); if the token map is
empty, print an error and `return` (no stream client is built, no nonzero
exit is signalled); otherwise upsert every cached Market metadata
(`_save_market_metadata`) and only then connect the stream with the token
map's keys. -/
def start_recording (api : String → Option GammaMarket) (mids : List String) : StartResult :=
  let st := fetch_market_metadata api mids
  if st.token_map.isEmpty then
    { events := st.events, savedMarkets := [], connected := none, exitedNonzero := false }
  else
    let metas := st.markets_metadata.map Prod.snd
    let keys := st.token_map.map Prod.fst
    { events := st.events ++ metas.map (fun m => .saveMarket m.market_id) ++ [.connect keys]
      savedMarkets := metas
      connected := some keys
      exitedNonzero := false }

/-! ## Helper lemmas -/

theorem fpCount_eq_zero_of_not_has {db : DB} {tid : TradeId}
    (h : hasTradeId db tid = false) : fpCount db tid = 0 := by
  simp only [hasTradeId, List.any_eq_false, decide_eq_true_eq] at h
  simp only [fpCount, List.length_eq_zero, List.filter_eq_nil_iff, decide_eq_true_eq]
  exact h

theorem insert_trade_fresh {db : DB} {t : Trade} (now : String)
    (hchk : tradeSatisfiesChecks t = true)
    (hfresh : hasTradeId db (fingerprintOf t) = false) :
    insert_trade db t now =
      ({ db with trades := db.trades ++ [mkTradeRow t now] }, true) := by
  simp [insert_trade, hchk, mkTradeRow, hfresh]

theorem insert_trade_dup {db : DB} {t : Trade} (now : String)
    (hdup : hasTradeId db (fingerprintOf t) = true) :
    insert_trade db t now = (db, false) := by
  simp [insert_trade, mkTradeRow, hdup]

theorem insert_trade_preserves {db : DB} {tid : TradeId} (x : Trade) (now : String)
    (h : hasTradeId db tid = true) :
    hasTradeId (insert_trade db x now).1 tid = true ∧
      fpCount (insert_trade db x now).1 tid = fpCount db tid ∧
      ∀ r ∈ db.trades, r ∈ (insert_trade db x now).1.trades := by
  by_cases hc : (tradeSatisfiesChecks x && !(hasTradeId db (fingerprintOf x))) = true
  · have hxfresh : hasTradeId db (fingerprintOf x) = false := by
      simp only [Bool.and_eq_true, Bool.not_eq_true'] at hc
      exact hc.2
    have hne : fingerprintOf x ≠ tid := fun he => by rw [he] at hxfresh; rw [h] at hxfresh; cases hxfresh
    have hins : (insert_trade db x now).1.trades = db.trades ++ [mkTradeRow x now] := by
      simp [insert_trade, mkTradeRow, hc]
    refine ⟨?_, ?_, ?_⟩
    · simp only [hasTradeId, hins, List.any_append, Bool.or_eq_true]
      exact Or.inl (by simpa [hasTradeId] using h)
    · simp [fpCount, hins, List.filter_append, mkTradeRow, hne]
    · intro r hr
      rw [hins]
      exact List.mem_append_left _ hr
  · have : (insert_trade db x now).1 = db := by
      simp only [insert_trade, mkTradeRow]
      rw [if_neg hc]
    rw [this]
    exact ⟨h, rfl, fun r hr => hr⟩

theorem applyInserts_preserves {tid : TradeId} (later : List (Trade × String)) :
    ∀ db : DB, hasTradeId db tid = true →
      hasTradeId (applyInserts db later) tid = true ∧
        fpCount (applyInserts db later) tid = fpCount db tid ∧
        ∀ r ∈ db.trades, r ∈ (applyInserts db later).trades := by
  induction later with
  | nil => exact fun db h => ⟨h, rfl, fun r hr => hr⟩
  | cons p rest ih =>
    intro db h
    obtain ⟨h1, h2, h3⟩ := insert_trade_preserves p.1 p.2 h
    obtain ⟨g1, g2, g3⟩ := ih (insert_trade db p.1 p.2).1 h1
    exact ⟨g1, by rw [applyInserts, g2, h2], fun r hr => g3 r (h3 r hr)⟩

/-! ## C1: idempotent insert, first writer wins -/

/-- **C1.** For every trade record `t`, from any mix of sources: the first
`insert_trade` call (fingerprint not yet stored, row passing the schema's
domain checks) returns `True` and writes exactly one row; after any further
sequence of inserts, inserting any trade `t'` sharing `t`'s
(asset_id, timestamp, price, size) returns `False`, leaves the store
unchanged, and the store holds exactly one row for that fingerprint — the
first writer's row. -/
theorem insert_trade_idempotent_first_writer
    (db : DB) (t : Trade) (now : String) (later : List (Trade × String))
    (t' : Trade) (now' : String)
    (hchk : tradeSatisfiesChecks t = true)
    (hfresh : hasTradeId db (fingerprintOf t) = false)
    (ha : t'.asset_id = t.asset_id) (hts : t'.timestamp = t.timestamp)
    (hp : t'.price = t.price) (hs : t'.size = t.size) :
    (insert_trade db t now).2 = true ∧
    (insert_trade db t now).1.trades = db.trades ++ [mkTradeRow t now] ∧
    (insert_trade (applyInserts (insert_trade db t now).1 later) t' now').2 = false ∧
    (insert_trade (applyInserts (insert_trade db t now).1 later) t' now').1 =
      applyInserts (insert_trade db t now).1 later ∧
    fpCount (applyInserts (insert_trade db t now).1 later) (fingerprintOf t) = 1 ∧
    mkTradeRow t now ∈ (applyInserts (insert_trade db t now).1 later).trades := by
  have hfp : fingerprintOf t' = fingerprintOf t := by
    simp [fingerprintOf, generate_trade_id, ha, hts, hp, hs]
  have h1 := insert_trade_fresh now hchk hfresh
  have htr : (insert_trade db t now).1.trades = db.trades ++ [mkTradeRow t now] := by
    rw [h1]
  have hhas : hasTradeId (insert_trade db t now).1 (fingerprintOf t) = true := by
    simp [hasTradeId, htr, mkTradeRow]
  have hcnt : fpCount (insert_trade db t now).1 (fingerprintOf t) = 1 := by
    have h0 := fpCount_eq_zero_of_not_has hfresh
    simp [fpCount, htr, List.filter_append, mkTradeRow]
    simpa [fpCount] using h0
  obtain ⟨g1, g2, g3⟩ := applyInserts_preserves later (insert_trade db t now).1 hhas
  have hdup2 : hasTradeId (applyInserts (insert_trade db t now).1 later) (fingerprintOf t') = true := by
    rw [hfp]; exact g1
  have hfin := insert_trade_dup now' hdup2
  refine ⟨by rw [h1], htr, by rw [hfin], by rw [hfin], by rw [g2, hcnt], ?_⟩
  exact g3 _ (by rw [htr]; exact List.mem_append_right _ (by simp))

/-- A concrete trade used by the witnesses: the §8 scenario trade
(asset X, `2025-01-01T10:00:00Z`, price 0.55, size 100, stream source). -/
def egTrade : Trade :=
  { market_id := "996577", asset_id := "X", side := "BUY", outcome := some "Up",
    price := mkRat 11 20, size := mkRat 100 1, fee_rate_bps := none,
    timestamp := "2025-01-01T10:00:00Z", source := "websocket" }

/-- The same logical trade delivered again by the backfill source. -/
def egTradeB : Trade :=
  { egTrade with side := "SELL", source := "rest_api" }

/-- Witness for C1 at the §8 scenario: stream delivery then backfill
delivery of the same (asset_id, timestamp, price, size). -/
theorem insert_trade_idempotent_first_writer_witness :
    tradeSatisfiesChecks egTrade = true ∧
    hasTradeId DB.empty (fingerprintOf egTrade) = false ∧
    ((insert_trade DB.empty egTrade "r1").2 = true ∧
     (insert_trade DB.empty egTrade "r1").1.trades = DB.empty.trades ++ [mkTradeRow egTrade "r1"] ∧
     (insert_trade (applyInserts (insert_trade DB.empty egTrade "r1").1 []) egTradeB "r2").2 = false ∧
     (insert_trade (applyInserts (insert_trade DB.empty egTrade "r1").1 []) egTradeB "r2").1 =
       applyInserts (insert_trade DB.empty egTrade "r1").1 [] ∧
     fpCount (applyInserts (insert_trade DB.empty egTrade "r1").1 []) (fingerprintOf egTrade) = 1 ∧
     mkTradeRow egTrade "r1" ∈ (applyInserts (insert_trade DB.empty egTrade "r1").1 []).trades) :=
  ⟨by decide, by decide,
   insert_trade_idempotent_first_writer DB.empty egTrade "r1" [] egTradeB "r2"
     (by decide) (by decide) rfl rfl rfl rfl⟩

theorem find?_append_none {α : Type} {p : α → Bool} {l1 : List α}
    (h : l1.find? p = none) (l2 : List α) : (l1 ++ l2).find? p = l2.find? p := by
  induction l1 with
  | nil => rfl
  | cons a l ih =>
    rw [List.find?_eq_none] at h
    rw [List.cons_append, List.find?_cons_of_neg _ (h a (by simp))]
    exact ih (List.find?_eq_none.mpr fun x hx => h x (by simp [hx]))

theorem find?_filter_ne_none (l : List MarketRow) (mid : String) :
    (l.filter fun r => !(r.data.market_id == mid)).find?
      (fun r => r.data.market_id == mid) = none := by
  rw [List.find?_eq_none]
  intro x hx
  have := (List.mem_filter.mp hx).2
  simpa using this

theorem get_market_insert_self_of_none (db : DB) (m : MarketData) (now : String)
    (h : get_market db m.market_id = none) :
    get_market (insert_market db m now) m.market_id =
      some { data := m, first_seen := now, last_updated := now } := by
  unfold get_market at h ⊢
  unfold insert_market
  simp only [h]
  rw [find?_append_none (find?_filter_ne_none db.markets m.market_id)]
  rw [List.find?_cons_of_pos _ (by simp)]

theorem get_market_insert_self_of_some (db : DB) (m : MarketData) (now : String)
    (row : MarketRow) (h : get_market db m.market_id = some row) :
    get_market (insert_market db m now) m.market_id =
      some { data := m, first_seen := row.first_seen, last_updated := now } := by
  unfold get_market at h ⊢
  unfold insert_market
  simp only [h]
  rw [find?_append_none (find?_filter_ne_none db.markets m.market_id)]
  rw [List.find?_cons_of_pos _ (by simp)]

theorem upserts_keep_first_seen (mid : String) (rest : List (MarketData × String)) :
    ∀ (db : DB) (row : MarketRow), get_market db mid = some row →
      (∀ p ∈ rest, p.1.market_id = mid) →
      ∃ row2 : MarketRow,
        get_market (applyMarketUpserts db rest) mid = some row2 ∧
        row2.first_seen = row.first_seen ∧
        row2.last_updated = (rest.map Prod.snd).getLastD row.last_updated ∧
        row2.data = (rest.map Prod.fst).getLastD row.data := by
  induction rest with
  | nil => exact fun db row h _ => ⟨row, h, rfl, rfl, rfl⟩
  | cons p rest ih =>
    intro db row h hall
    have hmid : p.1.market_id = mid := hall p (by simp)
    have hnext : get_market (insert_market db p.1 p.2) mid =
        some { data := p.1, first_seen := row.first_seen, last_updated := p.2 } := by
      have h2 := get_market_insert_self_of_some db p.1 p.2 row (by rw [hmid]; exact h)
      rw [hmid] at h2
      exact h2
    obtain ⟨row2, g1, g2, g3, g4⟩ :=
      ih (insert_market db p.1 p.2) _ hnext (fun q hq => hall q (by simp [hq]))
    refine ⟨row2, g1, g2, ?_, ?_⟩
    · rw [List.map_cons, List.getLastD_cons]
      exact g3
    · rw [List.map_cons, List.getLastD_cons]
      exact g4

/-! ## C2: first_seen set once, last_updated tracks the latest upsert -/

/-- **C2.** For a market_id first upserted at time `now1` and then upserted
any number of further times (with arbitrary mutable fields), the stored
row's `first_seen` still equals `now1`, its `last_updated` is the time of
the most recent upsert, and its mutable fields are those of the most recent
upsert. -/
theorem insert_market_first_seen_stable
    (db : DB) (m1 : MarketData) (now1 : String) (rest : List (MarketData × String))
    (hfresh : get_market db m1.market_id = none)
    (hall : ∀ p ∈ rest, p.1.market_id = m1.market_id) :
    ∃ row : MarketRow,
      get_market (applyMarketUpserts (insert_market db m1 now1) rest) m1.market_id =
        some row ∧
      row.first_seen = now1 ∧
      row.last_updated = (rest.map Prod.snd).getLastD now1 ∧
      row.data = (rest.map Prod.fst).getLastD m1 := by
  have h1 : get_market (insert_market db m1 now1) m1.market_id =
      some { data := m1, first_seen := now1, last_updated := now1 } :=
    get_market_insert_self_of_none db m1 now1 hfresh
  obtain ⟨row, g1, g2, g3, g4⟩ :=
    upserts_keep_first_seen m1.market_id rest (insert_market db m1 now1) _ h1 hall
  exact ⟨row, g1, g2, g3, g4⟩

/-- A concrete market metadata record for the witnesses. -/
def egMarket : MarketData :=
  { market_id := "996577", question := "Will BTC go up today?",
    outcome_up := some "Up", outcome_down := some "Down",
    token_up := "tokU", token_down := "tokD",
    created_at := some "2025-01-01T00:00:00Z", closed := false, closed_time := none }

/-- The same market upserted again with different mutable fields. -/
def egMarketV2 : MarketData :=
  { egMarket with
    question := "BTC up?"
    closed := true
    closed_time := some "2025-01-02T00:00:00Z" }

/-- Witness for C2: two upserts of the same market_id with different mutable
fields preserve the original `first_seen` and advance `last_updated`. -/
theorem insert_market_first_seen_stable_witness :
    ∃ row : MarketRow,
      get_market (applyMarketUpserts (insert_market DB.empty egMarket "t1")
        [(egMarketV2, "t2")]) egMarket.market_id = some row ∧
      row.first_seen = "t1" ∧
      row.last_updated = ([(egMarketV2, "t2")].map Prod.snd).getLastD "t1" ∧
      row.data = ([(egMarketV2, "t2")].map Prod.fst).getLastD egMarket :=
  insert_market_first_seen_stable DB.empty egMarket "t1" [(egMarketV2, "t2")]
    (by decide) (by decide)

/-! ## C3: range queries are inclusive at start, exclusive at end -/

/-- **C3.** With both bounds given (non-empty timestamp strings, so the
Python truthiness guards keep the filters), `get_trades_by_market` and
`get_trades_by_token` return exactly the stored rows of the market/token
whose timestamp satisfies `start <= timestamp < end`: a trade at exactly
`start` is included, a trade at exactly `end` is excluded. -/
theorem range_query_boundaries
    (db : DB) (mid aid s e : String) (r : TradeRow)
    (hs : s ≠ "") (he : e ≠ "") :
    (r ∈ get_trades_by_market db mid (some s) (some e) none ↔
      r ∈ db.trades ∧ r.market_id = mid ∧ s ≤ r.timestamp ∧ r.timestamp < e) ∧
    (r ∈ get_trades_by_token db aid (some s) (some e) ↔
      r ∈ db.trades ∧ r.asset_id = aid ∧ s ≤ r.timestamp ∧ r.timestamp < e) := by
  have hsF : s.isEmpty = false := by
    cases hb : s.isEmpty with
    | false => rfl
    | true => exact absurd ((String.isEmpty_iff s).mp hb) hs
  have heF : e.isEmpty = false := by
    cases hb : e.isEmpty with
    | false => rfl
    | true => exact absurd ((String.isEmpty_iff e).mp hb) he
  constructor
  · rw [get_trades_by_market, List.mem_insertionSort, List.mem_filter]
    simp [marketQueryPred, strFilterActive, hsF, heF, and_assoc]
  · rw [get_trades_by_token, List.mem_insertionSort, List.mem_filter]
    simp [tokenQueryPred, strFilterActive, hsF, heF, and_assoc]

/-- A second trade of the same market, half an hour later. -/
def egTrade2 : Trade :=
  { egTrade with
    asset_id := "X"
    price := mkRat 3 5
    timestamp := "2025-01-01T10:30:00Z" }

/-- A third trade of the same market at the exclusive upper bound. -/
def egTrade3 : Trade :=
  { egTrade with
    asset_id := "X"
    price := mkRat 13 20
    timestamp := "2025-01-01T11:00:00Z" }

/-- Three trades of one market inserted in order. -/
def egDb3 : DB :=
  applyInserts DB.empty [(egTrade, "r1"), (egTrade2, "r2"), (egTrade3, "r3")]

/-- Witness for C3: the row stored at exactly the inclusive `start` bound,
queried over `[10:00, 11:00)`. -/
theorem range_query_boundaries_witness :
    (mkTradeRow egTrade "r1" ∈ get_trades_by_market egDb3 "996577"
        (some "2025-01-01T10:00:00Z") (some "2025-01-01T11:00:00Z") none ↔
      mkTradeRow egTrade "r1" ∈ egDb3.trades ∧
        (mkTradeRow egTrade "r1").market_id = "996577" ∧
        "2025-01-01T10:00:00Z" ≤ (mkTradeRow egTrade "r1").timestamp ∧
        (mkTradeRow egTrade "r1").timestamp < "2025-01-01T11:00:00Z") ∧
    (mkTradeRow egTrade "r1" ∈ get_trades_by_token egDb3 "X"
        (some "2025-01-01T10:00:00Z") (some "2025-01-01T11:00:00Z") ↔
      mkTradeRow egTrade "r1" ∈ egDb3.trades ∧
        (mkTradeRow egTrade "r1").asset_id = "X" ∧
        "2025-01-01T10:00:00Z" ≤ (mkTradeRow egTrade "r1").timestamp ∧
        (mkTradeRow egTrade "r1").timestamp < "2025-01-01T11:00:00Z") :=
  range_query_boundaries egDb3 "996577" "X"
    "2025-01-01T10:00:00Z" "2025-01-01T11:00:00Z" (mkTradeRow egTrade "r1")
    (by decide) (by decide)

/-! ## C4: query ordering and (in)dependence on insertion order -/

/-- Whether `insert_trade` on state `db` would write this trade: the schema
checks pass and the fingerprint is not yet stored. -/
def goodTrade (db : DB) (t : Trade) : Bool :=
  tradeSatisfiesChecks t && !(hasTradeId db (fingerprintOf t))

theorem hasTradeId_append_single (db : DB) (row : TradeRow) (tid : TradeId) :
    hasTradeId { db with trades := db.trades ++ [row] } tid =
      (hasTradeId db tid || decide (row.trade_id = tid)) := by
  simp [hasTradeId, List.any_append]

theorem applyInserts_eq_append (pairs : List (Trade × String)) :
    ∀ db : DB,
      pairs.Pairwise (fun p q => fingerprintOf p.1 ≠ fingerprintOf q.1) →
      (applyInserts db pairs).trades =
        db.trades ++ (pairs.filter fun p => goodTrade db p.1).map
          (fun p => mkTradeRow p.1 p.2) := by
  induction pairs with
  | nil => intro db _; simp [applyInserts]
  | cons p rest ih =>
    intro db hpw
    rw [List.pairwise_cons] at hpw
    obtain ⟨hhead, htail⟩ := hpw
    by_cases hg : goodTrade db p.1 = true
    · have hchk : tradeSatisfiesChecks p.1 = true := by
        simp only [goodTrade, Bool.and_eq_true] at hg
        exact hg.1
      have hfresh : hasTradeId db (fingerprintOf p.1) = false := by
        simp only [goodTrade, Bool.and_eq_true, Bool.not_eq_true'] at hg
        exact hg.2
      have hstep : insert_trade db p.1 p.2 =
          ({ db with trades := db.trades ++ [mkTradeRow p.1 p.2] }, true) :=
        insert_trade_fresh p.2 hchk hfresh
      have hfilter :
          (rest.filter fun q =>
              goodTrade { db with trades := db.trades ++ [mkTradeRow p.1 p.2] } q.1) =
            rest.filter fun q => goodTrade db q.1 := by
        apply List.filter_congr
        intro q hq
        have hne : fingerprintOf p.1 ≠ fingerprintOf q.1 := hhead q hq
        simp only [goodTrade, hasTradeId_append_single, mkTradeRow]
        rw [decide_eq_false hne]
        simp
      rw [applyInserts, hstep]
      rw [ih _ htail]
      rw [hfilter]
      simp [List.filter_cons, hg, List.append_assoc]
    · have hstep : insert_trade db p.1 p.2 = (db, false) := by
        simp only [insert_trade, mkTradeRow]
        rw [if_neg]
        simpa [goodTrade] using hg
      rw [applyInserts, hstep]
      rw [ih _ htail]
      have hgf : goodTrade db p.1 = false := by simpa using hg
      simp [List.filter_cons, hgf]

/-- **C4 (amended).** Query results for a market or token are non-decreasing
in timestamp for every database state (hence for every insertion order);
and the stored multiset of rows is independent of the insertion order
provided the inserted trades have pairwise distinct fingerprints
(asset_id, timestamp, six-decimal price, six-decimal size).  (Without that
proviso the claim fails: see the counterexample, where two distinct trades
share a fingerprint and the first writer wins.) -/
theorem query_ordering_and_multiset (db : DB) (mid aid : String)
    (st en oc : Option String) (pairs1 pairs2 : List (Trade × String)) :
    List.Sorted tsLe (get_trades_by_market db mid st en oc) ∧
    List.Sorted tsLe (get_trades_by_token db aid st en) ∧
    (pairs1.Perm pairs2 →
      pairs1.Pairwise (fun p q => fingerprintOf p.1 ≠ fingerprintOf q.1) →
      (applyInserts db pairs1).trades.Perm (applyInserts db pairs2).trades) := by
  refine ⟨List.sorted_insertionSort tsLe _, List.sorted_insertionSort tsLe _, ?_⟩
  intro hperm hpw
  have hpw2 : pairs2.Pairwise (fun p q => fingerprintOf p.1 ≠ fingerprintOf q.1) :=
    (hperm.pairwise_iff fun h => Ne.symm h).mp hpw
  rw [applyInserts_eq_append pairs1 db hpw, applyInserts_eq_append pairs2 db hpw2]
  exact List.Perm.append_left _ (List.Perm.map _ (List.Perm.filter _ hperm))

/-- The §8 scenario trade with the opposite side: a distinct trade record
that shares egTrade's (asset_id, timestamp, price, size) fingerprint. -/
def egTradeSell : Trade := { egTrade with side := "SELL" }

/-- **C4 counterexample.** For the two-trade set containing `egTrade` (BUY)
and `egTradeSell` (SELL) — distinct records with equal fingerprint — the two
insertion orders yield different query results: dedup keeps the first
writer, so the stored multiset does depend on insertion order. -/
theorem query_multiset_depends_on_insertion_order :
    ¬ (get_trades_by_market
          (applyInserts DB.empty [(egTrade, "r1"), (egTradeSell, "r1")])
          "996577" none none none).Perm
        (get_trades_by_market
          (applyInserts DB.empty [(egTradeSell, "r1"), (egTrade, "r1")])
          "996577" none none none) := by
  intro hp
  have h1 : get_trades_by_market
      (applyInserts DB.empty [(egTrade, "r1"), (egTradeSell, "r1")])
      "996577" none none none = [mkTradeRow egTrade "r1"] := by decide
  have h2 : get_trades_by_market
      (applyInserts DB.empty [(egTradeSell, "r1"), (egTrade, "r1")])
      "996577" none none none = [mkTradeRow egTradeSell "r1"] := by decide
  rw [h1, h2] at hp
  have h3 : mkTradeRow egTrade "r1" = mkTradeRow egTradeSell "r1" := by
    have h4 := List.perm_singleton.mp hp
    injection h4
  exact absurd h3 (by decide)

/-- Witness for the amended C4, at a database of three trades and a swapped
pair of distinct-fingerprint inserts. -/
theorem query_ordering_and_multiset_witness :
    List.Sorted tsLe (get_trades_by_market egDb3 "996577" none none none) ∧
    List.Sorted tsLe (get_trades_by_token egDb3 "X" none none) ∧
    (applyInserts DB.empty [(egTrade, "r1"), (egTrade2, "r2")]).trades.Perm
      (applyInserts DB.empty [(egTrade2, "r2"), (egTrade, "r1")]).trades :=
  ⟨(query_ordering_and_multiset egDb3 "996577" "X" none none none [] []).1,
   (query_ordering_and_multiset egDb3 "996577" "X" none none none [] []).2.1,
   (query_ordering_and_multiset DB.empty "996577" "X" none none none
      [(egTrade, "r1"), (egTrade2, "r2")] [(egTrade2, "r2"), (egTrade, "r1")]).2.2
     (List.Perm.swap (egTrade2, "r2") (egTrade, "r1") []) (by decide)⟩

/-! ## C5: summary aggregates -/

theorem foldl_min_spec (xs : List String) : ∀ x : String,
    xs.foldl min x ∈ x :: xs ∧ ∀ y ∈ x :: xs, xs.foldl min x ≤ y := by
  induction xs with
  | nil =>
    intro x
    refine ⟨by simp, ?_⟩
    intro y hy
    rw [List.mem_singleton] at hy
    subst hy
    simp
  | cons a xs ih =>
    intro x
    obtain ⟨hmem, hle⟩ := ih (min x a)
    rw [List.foldl_cons]
    constructor
    · rcases List.mem_cons.mp hmem with h | h
      · rcases min_choice x a with hc | hc
        · rw [h, hc]; simp
        · rw [h, hc]; simp
      · simp [h]
    · intro y hy
      rcases List.mem_cons.mp hy with h | h
      · calc xs.foldl min (min x a) ≤ min x a := hle _ (by simp)
          _ ≤ x := min_le_left x a
          _ = y := h.symm
      · rcases List.mem_cons.mp h with h2 | h2
        · calc xs.foldl min (min x a) ≤ min x a := hle _ (by simp)
            _ ≤ a := min_le_right x a
            _ = y := h2.symm
        · exact hle y (by simp [h2])

theorem foldl_max_spec (xs : List String) : ∀ x : String,
    xs.foldl max x ∈ x :: xs ∧ ∀ y ∈ x :: xs, y ≤ xs.foldl max x := by
  induction xs with
  | nil =>
    intro x
    refine ⟨by simp, ?_⟩
    intro y hy
    rw [List.mem_singleton] at hy
    subst hy
    simp
  | cons a xs ih =>
    intro x
    obtain ⟨hmem, hle⟩ := ih (max x a)
    rw [List.foldl_cons]
    constructor
    · rcases List.mem_cons.mp hmem with h | h
      · rcases max_choice x a with hc | hc
        · rw [h, hc]; simp
        · rw [h, hc]; simp
      · simp [h]
    · intro y hy
      rcases List.mem_cons.mp hy with h | h
      · calc y = x := h
          _ ≤ max x a := le_max_left x a
          _ ≤ xs.foldl max (max x a) := hle _ (by simp)
      · rcases List.mem_cons.mp h with h2 | h2
        · calc y = a := h2
            _ ≤ max x a := le_max_right x a
            _ ≤ xs.foldl max (max x a) := hle _ (by simp)
        · exact hle y (by simp [h2])

theorem sqlMin_spec (l : List String) (m : String) (h : sqlMin l = some m) :
    m ∈ l ∧ ∀ x ∈ l, m ≤ x := by
  cases l with
  | nil => cases h
  | cons x xs =>
    obtain ⟨hmem, hle⟩ := foldl_min_spec xs x
    injection h with h
    exact ⟨h ▸ hmem, fun y hy => h ▸ hle y hy⟩

theorem sqlMax_spec (l : List String) (m : String) (h : sqlMax l = some m) :
    m ∈ l ∧ ∀ x ∈ l, x ≤ m := by
  cases l with
  | nil => cases h
  | cons x xs =>
    obtain ⟨hmem, hle⟩ := foldl_max_spec xs x
    injection h with h
    exact ⟨h ▸ hmem, fun y hy => h ▸ hle y hy⟩

theorem sum_map_indicator (a : String) : ∀ d : List String, d.Nodup → a ∈ d →
    (d.map fun s => if s = a then (1:ℕ) else 0).sum = 1 := by
  intro d
  induction d with
  | nil => intro _ ha; cases ha
  | cons b d ih =>
    intro hnd ha
    rw [List.nodup_cons] at hnd
    rcases List.mem_cons.mp ha with h | h
    · rw [List.map_cons, List.sum_cons, if_pos h.symm]
      have hz : ∀ s ∈ d, (if s = a then (1:ℕ) else 0) = 0 := by
        intro s hs
        refine if_neg fun he => hnd.1 ?_
        rw [← h, ← he]
        exact hs
      have hdz : (d.map fun s => if s = a then (1:ℕ) else 0).sum = 0 := by
        rw [List.map_congr_left hz]
        simp
      omega
    · have hb : (if b = a then (1:ℕ) else 0) = 0 := by
        refine if_neg fun he => hnd.1 ?_
        rw [he]
        exact h
      rw [List.map_cons, List.sum_cons, hb, ih hnd.2 h]

theorem sum_map_add_split (f g : String → ℕ) : ∀ d : List String,
    (d.map fun s => f s + g s).sum = (d.map f).sum + (d.map g).sum := by
  intro d
  induction d with
  | nil => rfl
  | cons b d ih =>
    simp only [List.map_cons, List.sum_cons, ih]
    omega

theorem sum_map_count_nodup (d : List String) (hd : d.Nodup) :
    ∀ l : List String, (∀ x ∈ l, x ∈ d) →
      (d.map fun s => l.count s).sum = l.length := by
  intro l
  induction l with
  | nil => intro _; simp
  | cons a l ih =>
    intro hsub
    have ha : a ∈ d := hsub a (by simp)
    have hcongr : ∀ s ∈ d, (a :: l).count s = l.count s + if s = a then 1 else 0 := by
      intro s _
      rw [List.count_cons]
      congr 1
      rcases eq_or_ne s a with h | h
      · subst h
        simp
      · simp [h, Ne.symm h]
    rw [List.map_congr_left hcongr]
    rw [sum_map_add_split (fun s => l.count s) (fun s => if s = a then 1 else 0) d]
    rw [ih (fun x hx => hsub x (by simp [hx])), sum_map_indicator a d hd ha]
    simp

/-- **C5.** Inserting `N` trades with pairwise distinct fingerprints, all
passing the schema checks and all for market `mid`, into a fresh database:
the summary reports `total_trades = N`, `total_volume` = the sum of the
inserted sizes, `oldest_trade` / `newest_trade` = the least / greatest
inserted timestamp, and the per-source counts sum to `N`. -/
theorem market_summary_correct (pairs : List (Trade × String)) (mid : String)
    (hpw : pairs.Pairwise (fun p q => fingerprintOf p.1 ≠ fingerprintOf q.1))
    (hok : ∀ p ∈ pairs, tradeSatisfiesChecks p.1 = true ∧ p.1.market_id = mid) :
    (get_market_summary (applyInserts DB.empty pairs) mid).total_trades = pairs.length ∧
    (get_market_summary (applyInserts DB.empty pairs) mid).total_volume =
      (if pairs.isEmpty then none else some (pairs.map fun p => p.1.size).sum) ∧
    (get_market_summary (applyInserts DB.empty pairs) mid).oldest_trade =
      sqlMin (pairs.map fun p => p.1.timestamp) ∧
    (get_market_summary (applyInserts DB.empty pairs) mid).newest_trade =
      sqlMax (pairs.map fun p => p.1.timestamp) ∧
    (∀ m, (get_market_summary (applyInserts DB.empty pairs) mid).oldest_trade = some m →
      m ∈ pairs.map (fun p => p.1.timestamp) ∧
        ∀ x ∈ pairs.map (fun p => p.1.timestamp), m ≤ x) ∧
    (∀ m, (get_market_summary (applyInserts DB.empty pairs) mid).newest_trade = some m →
      m ∈ pairs.map (fun p => p.1.timestamp) ∧
        ∀ x ∈ pairs.map (fun p => p.1.timestamp), x ≤ m) ∧
    ((get_market_summary (applyInserts DB.empty pairs) mid).sources.map Prod.snd).sum =
      pairs.length := by
  have hrows : (applyInserts DB.empty pairs).trades =
      pairs.map fun p => mkTradeRow p.1 p.2 := by
    rw [applyInserts_eq_append pairs DB.empty hpw]
    have hfull : (pairs.filter fun p => goodTrade DB.empty p.1) = pairs := by
      rw [List.filter_eq_self]
      intro p hp
      simp [goodTrade, hasTradeId, DB.empty, (hok p hp).1]
    rw [hfull]
    rfl
  have hmarket : tradesOfMarket (applyInserts DB.empty pairs) mid =
      pairs.map fun p => mkTradeRow p.1 p.2 := by
    rw [tradesOfMarket, hrows, List.filter_eq_self.mpr]
    intro r hr
    obtain ⟨p, hp, hpr⟩ := List.mem_map.mp hr
    rw [← hpr]
    simpa [mkTradeRow] using (hok p hp).2
  have hts : ((tradesOfMarket (applyInserts DB.empty pairs) mid).map fun r => r.timestamp) =
      pairs.map fun p => p.1.timestamp := by
    rw [hmarket, List.map_map]
    rfl
  have hsz : ((tradesOfMarket (applyInserts DB.empty pairs) mid).map fun r => r.size) =
      pairs.map fun p => p.1.size := by
    rw [hmarket, List.map_map]
    rfl
  have hsrc : ((tradesOfMarket (applyInserts DB.empty pairs) mid).map fun r => r.source) =
      pairs.map fun p => p.1.source := by
    rw [hmarket, List.map_map]
    rfl
  have hempty : (tradesOfMarket (applyInserts DB.empty pairs) mid).isEmpty = pairs.isEmpty := by
    rw [hmarket]
    cases pairs <;> rfl
  have hlen : (tradesOfMarket (applyInserts DB.empty pairs) mid).length = pairs.length := by
    rw [hmarket, List.length_map]
  refine ⟨hlen, ?_, ?_, ?_, ?_, ?_, ?_⟩
  · show (if _ then none else some _) = _
    rw [hempty, hsz]
  · show sqlMin _ = _
    rw [hts]
  · show sqlMax _ = _
    rw [hts]
  · intro m hm
    show m ∈ _ ∧ _
    have : sqlMin (pairs.map fun p => p.1.timestamp) = some m := by
      have hm2 : sqlMin ((tradesOfMarket (applyInserts DB.empty pairs) mid).map
          fun r => r.timestamp) = some m := hm
      rw [hts] at hm2
      exact hm2
    exact sqlMin_spec _ m this
  · intro m hm
    have : sqlMax (pairs.map fun p => p.1.timestamp) = some m := by
      have hm2 : sqlMax ((tradesOfMarket (applyInserts DB.empty pairs) mid).map
          fun r => r.timestamp) = some m := hm
      rw [hts] at hm2
      exact hm2
    exact sqlMax_spec _ m this
  · show ((((tradesOfMarket (applyInserts DB.empty pairs) mid).map fun r => r.source).dedup.map
        _).map Prod.snd).sum = _
    rw [List.map_map]
    have hsum := sum_map_count_nodup
      ((tradesOfMarket (applyInserts DB.empty pairs) mid).map fun r => r.source).dedup
      (List.nodup_dedup _)
      ((tradesOfMarket (applyInserts DB.empty pairs) mid).map fun r => r.source)
      (fun x hx => List.mem_dedup.mpr hx)
    calc ((((tradesOfMarket (applyInserts DB.empty pairs) mid).map fun r => r.source).dedup.map
          fun s => (Prod.snd ∘ fun s => (s, (((tradesOfMarket (applyInserts DB.empty pairs)
            mid).map fun r => r.source).count s))) s).sum)
        = (((tradesOfMarket (applyInserts DB.empty pairs) mid).map fun r => r.source).dedup.map
            fun s => ((tradesOfMarket (applyInserts DB.empty pairs) mid).map
              fun r => r.source).count s).sum := rfl
      _ = (((tradesOfMarket (applyInserts DB.empty pairs) mid).map fun r => r.source)).length :=
          hsum
      _ = pairs.length := by rw [hsrc, List.length_map]

/-- `egTrade2` redelivered by the REST backfill. -/
def egTradeRest : Trade := { egTrade2 with source := "rest_api" }

/-- Witness for C5: two distinct-fingerprint trades, one per source. -/
theorem market_summary_correct_witness :
    (get_market_summary (applyInserts DB.empty [(egTrade, "r1"), (egTradeRest, "r2")])
        "996577").total_trades = [(egTrade, "r1"), (egTradeRest, "r2")].length ∧
    (get_market_summary (applyInserts DB.empty [(egTrade, "r1"), (egTradeRest, "r2")])
        "996577").total_volume =
      (if [(egTrade, "r1"), (egTradeRest, "r2")].isEmpty then none
       else some ([(egTrade, "r1"), (egTradeRest, "r2")].map fun p => p.1.size).sum) ∧
    (get_market_summary (applyInserts DB.empty [(egTrade, "r1"), (egTradeRest, "r2")])
        "996577").oldest_trade =
      sqlMin ([(egTrade, "r1"), (egTradeRest, "r2")].map fun p => p.1.timestamp) ∧
    (get_market_summary (applyInserts DB.empty [(egTrade, "r1"), (egTradeRest, "r2")])
        "996577").newest_trade =
      sqlMax ([(egTrade, "r1"), (egTradeRest, "r2")].map fun p => p.1.timestamp) ∧
    (∀ m, (get_market_summary (applyInserts DB.empty [(egTrade, "r1"), (egTradeRest, "r2")])
        "996577").oldest_trade = some m →
      m ∈ [(egTrade, "r1"), (egTradeRest, "r2")].map (fun p => p.1.timestamp) ∧
        ∀ x ∈ [(egTrade, "r1"), (egTradeRest, "r2")].map (fun p => p.1.timestamp), m ≤ x) ∧
    (∀ m, (get_market_summary (applyInserts DB.empty [(egTrade, "r1"), (egTradeRest, "r2")])
        "996577").newest_trade = some m →
      m ∈ [(egTrade, "r1"), (egTradeRest, "r2")].map (fun p => p.1.timestamp) ∧
        ∀ x ∈ [(egTrade, "r1"), (egTradeRest, "r2")].map (fun p => p.1.timestamp), x ≤ m) ∧
    ((get_market_summary (applyInserts DB.empty [(egTrade, "r1"), (egTradeRest, "r2")])
        "996577").sources.map Prod.snd).sum = [(egTrade, "r1"), (egTradeRest, "r2")].length :=
  market_summary_correct [(egTrade, "r1"), (egTradeRest, "r2")] "996577"
    (by decide) (by decide)

/-! ## C6: batch insert counts new rows, never rolls back -/

theorem insert_trade_trades_shape (db : DB) (t : Trade) (now : String) :
    ∃ r : List TradeRow, (insert_trade db t now).1.trades = db.trades ++ r ∧
      r.length = (if (insert_trade db t now).2 then 1 else 0) := by
  by_cases hc : (tradeSatisfiesChecks t && !(hasTradeId db (fingerprintOf t))) = true
  · refine ⟨[mkTradeRow t now], ?_, ?_⟩
    · simp [insert_trade, mkTradeRow, hc]
    · simp [insert_trade, mkTradeRow, hc]
  · refine ⟨[], ?_, ?_⟩
    · simp only [insert_trade, mkTradeRow]
      rw [if_neg hc]
      simp
    · simp only [insert_trade, mkTradeRow]
      rw [if_neg hc]
      simp

theorem insert_trades_batch_fst (l : List (Trade × String)) :
    ∀ db : DB, (insert_trades_batch db l).1 = applyInserts db l := by
  induction l with
  | nil => intro db; rfl
  | cons p rest ih =>
    intro db
    show (insert_trades_batch (insert_trade db p.1 p.2).1 rest).1 = _
    rw [ih]
    rfl

theorem insert_trades_batch_trades (l : List (Trade × String)) :
    ∀ db : DB, ∃ r : List TradeRow,
      (insert_trades_batch db l).1.trades = db.trades ++ r ∧
      r.length = (insert_trades_batch db l).2 := by
  induction l with
  | nil => intro db; exact ⟨[], by simp [insert_trades_batch], rfl⟩
  | cons p rest ih =>
    obtain ⟨t, now⟩ := p
    intro db
    obtain ⟨r1, hr1, hl1⟩ := insert_trade_trades_shape db t now
    obtain ⟨r2, hr2, hl2⟩ := ih (insert_trade db t now).1
    have hfst : (insert_trades_batch db ((t, now) :: rest)).1 =
        (insert_trades_batch (insert_trade db t now).1 rest).1 := rfl
    have hsnd : (insert_trades_batch db ((t, now) :: rest)).2 =
        (if (insert_trade db t now).2 then 1 else 0) +
          (insert_trades_batch (insert_trade db t now).1 rest).2 := rfl
    refine ⟨r1 ++ r2, ?_, ?_⟩
    · rw [hfst, hr2, hr1, List.append_assoc]
    · rw [hsnd, List.length_append, hl1, hl2]

theorem insert_trades_batch_append (l1 l2 : List (Trade × String)) :
    ∀ db : DB, insert_trades_batch db (l1 ++ l2) =
      ((insert_trades_batch (insert_trades_batch db l1).1 l2).1,
       (insert_trades_batch db l1).2 +
         (insert_trades_batch (insert_trades_batch db l1).1 l2).2) := by
  induction l1 with
  | nil => intro db; simp [insert_trades_batch]
  | cons p rest ih =>
    obtain ⟨t, now⟩ := p
    intro db
    have hL : insert_trades_batch db ((t, now) :: (rest ++ l2)) =
        ((insert_trades_batch (insert_trade db t now).1 (rest ++ l2)).1,
         (if (insert_trade db t now).2 then 1 else 0) +
           (insert_trades_batch (insert_trade db t now).1 (rest ++ l2)).2) := rfl
    have hA : (insert_trades_batch db ((t, now) :: rest)).1 =
        (insert_trades_batch (insert_trade db t now).1 rest).1 := rfl
    have hB : (insert_trades_batch db ((t, now) :: rest)).2 =
        (if (insert_trade db t now).2 then 1 else 0) +
          (insert_trades_batch (insert_trade db t now).1 rest).2 := rfl
    rw [List.cons_append, hL, ih (insert_trade db t now).1, hA, hB]
    simp [Nat.add_assoc]

/-- **C6.** `insert_trades_batch` applies `insert_trade` per item in order;
it returns exactly the number of newly written (non-duplicate, non-rejected)
rows — the rows appended to the store; and processing further items (even
failing ones) never rolls back rows committed for earlier items: after any
split `l1 ++ l2` the rows written for `l1` are still a prefix of the final
store. -/
theorem insert_batch_count_no_rollback (db : DB) (l1 l2 : List (Trade × String)) :
    (insert_trades_batch db l1).1 = applyInserts db l1 ∧
    insert_trades_batch db (l1 ++ l2) =
      ((insert_trades_batch (insert_trades_batch db l1).1 l2).1,
       (insert_trades_batch db l1).2 +
         (insert_trades_batch (insert_trades_batch db l1).1 l2).2) ∧
    (∃ r1 : List TradeRow, (insert_trades_batch db l1).1.trades = db.trades ++ r1 ∧
      r1.length = (insert_trades_batch db l1).2) ∧
    (∃ r2 : List TradeRow, (insert_trades_batch db (l1 ++ l2)).1.trades =
      (insert_trades_batch db l1).1.trades ++ r2 ∧
      r2.length = (insert_trades_batch (insert_trades_batch db l1).1 l2).2) := by
  refine ⟨insert_trades_batch_fst l1 db, insert_trades_batch_append l1 l2 db, ?_, ?_⟩
  · exact insert_trades_batch_trades l1 db
  · obtain ⟨r2, hr2, hl2⟩ := insert_trades_batch_trades l2 (insert_trades_batch db l1).1
    refine ⟨r2, ?_, hl2⟩
    rw [insert_trades_batch_append l1 l2 db]
    exact hr2

/-! ## C7: CSV export — zero trades returns 0 but writes no file -/

/-- The `ORDER BY timestamp` comparison between two written CSV lines. -/
def csvTsLe (a b : CsvRow) : Prop := a.timestamp ≤ b.timestamp

theorem query_all_eq_sort (db : DB) (mid : String) :
    get_trades_by_market db mid none none none =
      List.insertionSort tsLe (tradesOfMarket db mid) := by
  rw [get_trades_by_market, tradesOfMarket]
  congr 1
  apply List.filter_congr
  intro r _
  simp [marketQueryPred, strFilterActive]

/-- **C7 counterexample.** On a market with zero trades `export_to_csv`
returns 0 but writes nothing at all: the Python method returns before
opening the output path, so no header-only file is produced (the file
component is `none`, not an empty-bodied file). -/
theorem export_csv_empty_writes_no_file :
    export_to_csv DB.empty "996577" = (0, none) ∧
      export_to_csv DB.empty "996577" ≠
        (0, some { header := csvHeader, rows := [] }) := by
  refine ⟨rfl, ?_⟩
  intro h
  have h2 : (none : Option CsvFile) = some { header := csvHeader, rows := [] } :=
    congrArg Prod.snd h
  cases h2

/-- **C7 (amended).** `export_to_csv` on a market with zero trades returns 0
and creates no output file; on a market with trades it writes the fixed
header and all of the market's trades ascending by timestamp in the fixed
column order, and returns the row count. -/
theorem export_csv_amended (db : DB) (mid : String) :
    (tradesOfMarket db mid = [] → export_to_csv db mid = (0, none)) ∧
    (tradesOfMarket db mid ≠ [] →
      (export_to_csv db mid).1 = (tradesOfMarket db mid).length ∧
      (export_to_csv db mid).2 =
        some { header := csvHeader
               rows := (get_trades_by_market db mid none none none).map mkCsvRow } ∧
      List.Sorted csvTsLe
        ((get_trades_by_market db mid none none none).map mkCsvRow)) := by
  have hq := query_all_eq_sort db mid
  have hlen : (get_trades_by_market db mid none none none).length =
      (tradesOfMarket db mid).length := by
    rw [hq]
    exact (List.perm_insertionSort tsLe _).length_eq
  constructor
  · intro h
    have hnil : get_trades_by_market db mid none none none = [] := by
      rw [hq, h]
      rfl
    simp [export_to_csv, hnil]
  · intro h
    have hne : get_trades_by_market db mid none none none ≠ [] := by
      intro h0
      apply h
      rw [h0] at hlen
      exact List.length_eq_zero.mp hlen.symm
    have hie : (get_trades_by_market db mid none none none).isEmpty = false := by
      cases hq2 : get_trades_by_market db mid none none none with
      | nil => exact absurd hq2 hne
      | cons a l => rfl
    refine ⟨?_, ?_, ?_⟩
    · simp [export_to_csv, hie, hlen]
    · simp [export_to_csv, hie]
    · have hs : List.Sorted tsLe (get_trades_by_market db mid none none none) := by
        rw [hq]
        exact List.sorted_insertionSort tsLe _
      exact List.Pairwise.map mkCsvRow (fun a b hab => hab) hs

/-- Witness for the amended C7: the empty branch on a fresh database and the
populated branch on the three-trade database. -/
theorem export_csv_amended_witness :
    export_to_csv DB.empty "m" = (0, none) ∧
    (export_to_csv egDb3 "996577").1 = (tradesOfMarket egDb3 "996577").length ∧
    (export_to_csv egDb3 "996577").2 =
      some { header := csvHeader
             rows := (get_trades_by_market egDb3 "996577" none none none).map mkCsvRow } ∧
    List.Sorted csvTsLe
      ((get_trades_by_market egDb3 "996577" none none none).map mkCsvRow) :=
  ⟨(export_csv_amended DB.empty "m").1 (by decide),
   (export_csv_amended egDb3 "996577").2 (by decide)⟩

/-! ## C8: metadata resolution never decodes encoded token/outcome fields -/

/-- A Gamma market record whose `clobTokenIds` and `outcomes` arrive as
JSON-encoded strings — the shape the repository's other resolvers
(`live_monitor.py`, `price_history.py`, ...) decode with `json.loads`. -/
def egEncodedMarket : GammaMarket :=
  { question := some "Will BTC go up today?"
    createdAt := some "2025-01-01T00:00:00Z"
    closed := some false
    closedTime := none
    clobTokenIds := some (.str "[\"tokU\",\"tokD\"]")
    outcomes := some (.str "[\"Up\",\"Down\"]") }

/-- **C8 (code bug).** `TickRecorder._fetch_market_metadata` applies the
exactly-two validation to the raw field value with no defensive decoding:
on an upstream record whose token/outcome fields are encoded strings that
decode to exactly two identifiers and two labels, the code rejects the
market (string length 15 is compared against 2), while the spec's
resolver — which decodes before validating, like every sibling resolver in
the repository — accepts it. -/
theorem metadata_resolution_missing_decode :
    fetch_market_metadata_one (some egEncodedMarket) "996577" = none ∧
    decodeField (.str "[\"tokU\",\"tokD\"]") = ["tokU", "tokD"] ∧
    decodeField (.str "[\"Up\",\"Down\"]") = ["Up", "Down"] ∧
    resolveSpecModel (some egEncodedMarket) "996577" ≠ none ∧
    fetch_market_metadata_one none "996577" = none := by
  refine ⟨?_, ?_, ?_, ?_, ?_⟩ <;> decide

/-! ## C9: startup resolves, skips failures, saves before connecting -/

theorem fetchStep_events_kind (api : String → Option GammaMarket)
    (st : FetchState) (mid : String) (ts : List String)
    (h : RecEvent.connect ts ∉ st.events) :
    RecEvent.connect ts ∉ (fetchStep api st mid).events := by
  cases hm : fetch_market_metadata_one (api mid) mid with
  | none =>
    simp only [fetchStep, hm, List.mem_append]
    rintro (hin | hin)
    · exact h hin
    · simp at hin
  | some v =>
    obtain ⟨md, ⟨tu, ou⟩, td, od⟩ := v
    simp only [fetchStep, hm, List.mem_append]
    rintro (hin | hin)
    · exact h hin
    · simp at hin

theorem fetch_events_no_connect (api : String → Option GammaMarket)
    (mids : List String) :
    ∀ st : FetchState, (∀ ts, RecEvent.connect ts ∉ st.events) →
      ∀ ts, RecEvent.connect ts ∉ (mids.foldl (fetchStep api) st).events := by
  induction mids with
  | nil => exact fun st h => h
  | cons mid rest ih =>
    intro st h ts
    exact ih (fetchStep api st mid)
      (fun ts2 => fetchStep_events_kind api st mid ts2 (h ts2)) ts

theorem fetchStep_fail_keeps_state (api : String → Option GammaMarket)
    (st : FetchState) (bad : String) (h : api bad = none) :
    (fetchStep api st bad).markets_metadata = st.markets_metadata ∧
      (fetchStep api st bad).token_map = st.token_map := by
  simp [fetchStep, fetch_market_metadata_one, h]

theorem fetch_state_congr (api : String → Option GammaMarket) (mids : List String) :
    ∀ st1 st2 : FetchState,
      st1.markets_metadata = st2.markets_metadata → st1.token_map = st2.token_map →
      (mids.foldl (fetchStep api) st1).markets_metadata =
        (mids.foldl (fetchStep api) st2).markets_metadata ∧
      (mids.foldl (fetchStep api) st1).token_map =
        (mids.foldl (fetchStep api) st2).token_map := by
  induction mids with
  | nil => exact fun _ _ h1 h2 => ⟨h1, h2⟩
  | cons mid rest ih =>
    intro st1 st2 h1 h2
    apply ih
    · cases hm : fetch_market_metadata_one (api mid) mid with
      | none => simpa [fetchStep, hm] using h1
      | some v =>
        obtain ⟨md, ⟨tu, ou⟩, td, od⟩ := v
        simp only [fetchStep, hm]
        rw [h1]
    · cases hm : fetch_market_metadata_one (api mid) mid with
      | none => simpa [fetchStep, hm] using h2
      | some v =>
        obtain ⟨md, ⟨tu, ou⟩, td, od⟩ := v
        simp only [fetchStep, hm]
        rw [h2]

/-- **C9 counterexample.** When zero markets resolve, `start_recording`
prints its diagnostic and terminates by a plain `return`: the stream client
is never constructed (`connected = none`), but no non-zero-equivalent exit
status is signalled — the process falls off `main` and exits zero. -/
theorem start_recording_zero_markets_exits_zero :
    (start_recording (fun _ => none) ["996577"]).connected = none ∧
    (start_recording (fun _ => none) ["996577"]).exitedNonzero = false := by
  refine ⟨?_, ?_⟩ <;> rfl

/-- **C9 (amended).** `start_recording` resolves every market id, skipping
individually failing resolutions without affecting the collected metadata
or token map; when zero markets resolve it aborts before any save or stream
connect — but by a plain early return (no non-zero exit status); when at
least one resolves, all resolved Market metadata is upserted and only after
every save does the single connect event follow. -/
theorem start_recording_amended (api : String → Option GammaMarket)
    (mids : List String) :
    ((fetch_market_metadata api mids).token_map = [] →
      (start_recording api mids).connected = none ∧
      (start_recording api mids).savedMarkets = [] ∧
      (start_recording api mids).exitedNonzero = false ∧
      ∀ ts, RecEvent.connect ts ∉ (start_recording api mids).events) ∧
    ((fetch_market_metadata api mids).token_map ≠ [] →
      (start_recording api mids).connected =
        some ((fetch_market_metadata api mids).token_map.map Prod.fst) ∧
      (start_recording api mids).savedMarkets =
        (fetch_market_metadata api mids).markets_metadata.map Prod.snd ∧
      (start_recording api mids).events =
        (fetch_market_metadata api mids).events ++
          ((fetch_market_metadata api mids).markets_metadata.map Prod.snd).map
            (fun m => RecEvent.saveMarket m.market_id) ++
          [RecEvent.connect ((fetch_market_metadata api mids).token_map.map Prod.fst)]) ∧
    (∀ (mids1 mids2 : List String) (bad : String), api bad = none →
      (fetch_market_metadata api (mids1 ++ bad :: mids2)).markets_metadata =
        (fetch_market_metadata api (mids1 ++ mids2)).markets_metadata ∧
      (fetch_market_metadata api (mids1 ++ bad :: mids2)).token_map =
        (fetch_market_metadata api (mids1 ++ mids2)).token_map) := by
  refine ⟨?_, ?_, ?_⟩
  · intro h
    have hie : (fetch_market_metadata api mids).token_map.isEmpty = true := by
      rw [h]; rfl
    refine ⟨?_, ?_, ?_, ?_⟩
    · simp [start_recording, hie]
    · simp [start_recording, hie]
    · simp [start_recording, hie]
    · intro ts
      have hev : (start_recording api mids).events =
          (fetch_market_metadata api mids).events := by
        simp [start_recording, hie]
      rw [hev]
      exact fetch_events_no_connect api mids _ (fun _ => by simp) ts
  · intro h
    have hie : (fetch_market_metadata api mids).token_map.isEmpty = false := by
      cases hq : (fetch_market_metadata api mids).token_map with
      | nil => exact absurd hq h
      | cons a l => rfl
    refine ⟨?_, ?_, ?_⟩
    · simp [start_recording, hie]
    · simp [start_recording, hie]
    · simp [start_recording, hie]
  · intro mids1 mids2 bad hbad
    rw [fetch_market_metadata, fetch_market_metadata, List.foldl_append,
      List.foldl_append, List.foldl_cons]
    obtain ⟨h1, h2⟩ := fetchStep_fail_keeps_state api
      (mids1.foldl (fetchStep api) { events := [], markets_metadata := [], token_map := [] })
      bad hbad
    exact fetch_state_congr api mids2 _ _ h1 h2

/-- A resolvable Gamma record with decoded (list-shaped) fields. -/
def egGammaOk : GammaMarket :=
  { question := some "Will BTC go up today?"
    createdAt := some "2025-01-01T00:00:00Z"
    closed := some false
    closedTime := none
    clobTokenIds := some (.list ["tokU", "tokD"])
    outcomes := some (.list ["Up", "Down"]) }

/-- An upstream lookup that resolves exactly the market "996577". -/
def egApi : String → Option GammaMarket :=
  fun mid => if mid == "996577" then some egGammaOk else none

/-- Witness for the amended C9: the zero-resolution abort, the
one-of-two-markets run (the bad id is skipped, saves precede the connect),
and the skip property at a concrete bad id. -/
theorem start_recording_amended_witness :
    ((start_recording (fun _ => none) ["996577"]).connected = none ∧
      (start_recording (fun _ => none) ["996577"]).savedMarkets = [] ∧
      (start_recording (fun _ => none) ["996577"]).exitedNonzero = false ∧
      ∀ ts, RecEvent.connect ts ∉ (start_recording (fun _ => none) ["996577"]).events) ∧
    ((start_recording egApi ["bad", "996577"]).connected =
        some ((fetch_market_metadata egApi ["bad", "996577"]).token_map.map Prod.fst) ∧
      (start_recording egApi ["bad", "996577"]).savedMarkets =
        (fetch_market_metadata egApi ["bad", "996577"]).markets_metadata.map Prod.snd ∧
      (start_recording egApi ["bad", "996577"]).events =
        (fetch_market_metadata egApi ["bad", "996577"]).events ++
          ((fetch_market_metadata egApi ["bad", "996577"]).markets_metadata.map
            Prod.snd).map (fun m => RecEvent.saveMarket m.market_id) ++
          [RecEvent.connect ((fetch_market_metadata egApi
            ["bad", "996577"]).token_map.map Prod.fst)]) ∧
    ((fetch_market_metadata egApi (["996577"] ++ "bad" :: [])).markets_metadata =
        (fetch_market_metadata egApi (["996577"] ++ [])).markets_metadata ∧
      (fetch_market_metadata egApi (["996577"] ++ "bad" :: [])).token_map =
        (fetch_market_metadata egApi (["996577"] ++ [])).token_map) :=
  ⟨(start_recording_amended (fun _ => none) ["996577"]).1 (by decide),
   (start_recording_amended egApi ["bad", "996577"]).2.1 (by decide),
   (start_recording_amended egApi ["bad", "996577"]).2.2 ["996577"] [] "bad" (by decide)⟩

/-! ## C10: six-decimal fingerprint collisions deduplicate distinct values -/

/-- **C10.** Two trade records with equal asset_id and timestamp whose
prices render to the same six-decimal fixed-point text and whose sizes do
likewise get the same trade_id from `_generate_trade_id`; hence after the
first is inserted, inserting the second is treated as a duplicate
(`insert_trade` returns `False` and leaves the store unchanged) even when
the underlying numeric price or size values differ. -/
theorem trade_id_six_decimal_collision (t1 t2 : Trade) (db : DB) (now now' : String)
    (ha : t2.asset_id = t1.asset_id) (hts : t2.timestamp = t1.timestamp)
    (hp : fmt6 t2.price = fmt6 t1.price) (hs : fmt6 t2.size = fmt6 t1.size) :
    fingerprintOf t2 = fingerprintOf t1 ∧
    (tradeSatisfiesChecks t1 = true → hasTradeId db (fingerprintOf t1) = false →
      (insert_trade (insert_trade db t1 now).1 t2 now').2 = false ∧
      (insert_trade (insert_trade db t1 now).1 t2 now').1 = (insert_trade db t1 now).1) := by
  have hfp : fingerprintOf t2 = fingerprintOf t1 := by
    simp [fingerprintOf, generate_trade_id, ha, hts, hp, hs]
  refine ⟨hfp, ?_⟩
  intro hchk hfresh
  have h1 := insert_trade_fresh now hchk hfresh
  have htr : (insert_trade db t1 now).1.trades = db.trades ++ [mkTradeRow t1 now] := by
    rw [h1]
  have hhas : hasTradeId (insert_trade db t1 now).1 (fingerprintOf t2) = true := by
    rw [hfp]
    simp [hasTradeId, htr, mkTradeRow]
  have h2 := insert_trade_dup now' hhas
  exact ⟨by rw [h2], by rw [h2]⟩

/-- The §8 trade at numeric price 0.1234567. -/
def egTradeP1 : Trade := { egTrade with price := mkRat 1234567 10000000 }

/-- A distinct record at numeric price 0.12345674 from the backfill source:
both prices print as `0.123457` at six decimals. -/
def egTradeP2 : Trade :=
  { egTrade with
    price := mkRat 12345674 100000000
    side := "SELL"
    source := "rest_api" }

/-- Witness for C10: the two six-decimal-colliding prices differ as numbers
yet fingerprint identically, and the second insert is refused. -/
theorem trade_id_six_decimal_collision_witness :
    egTradeP1.price ≠ egTradeP2.price ∧
    fmt6 egTradeP2.price = fmt6 egTradeP1.price ∧
    fingerprintOf egTradeP2 = fingerprintOf egTradeP1 ∧
    (insert_trade (insert_trade DB.empty egTradeP1 "r1").1 egTradeP2 "r2").2 = false ∧
    (insert_trade (insert_trade DB.empty egTradeP1 "r1").1 egTradeP2 "r2").1 =
      (insert_trade DB.empty egTradeP1 "r1").1 :=
  have h := trade_id_six_decimal_collision egTradeP1 egTradeP2 DB.empty "r1" "r2"
    rfl rfl (by decide) (by decide)
  ⟨by decide, by decide, h.1, (h.2 (by decide) (by decide)).1, (h.2 (by decide) (by decide)).2⟩

end PolymarketTicks
